import Mathlib

/-!
Shallow embedding of the `koishi-plugin-w-elo` plugin (`src/index.ts` plus the
`showElo` / `showDeltaElo` display helpers).

Players and pending challenge requests live in two tables; the embedding models
them as lists inside a `DB` record.  JavaScript `number` values are modelled as
real numbers; the declared storage column types of the `w-elo-request` table
(`'integer'` for `rid`, `status`, `srcDeltaElo`, `destDeltaElo`) are modelled
separately by `EloRequestRow`.  Each command handler becomes a pure function
from a `DB` (and its arguments) to a result paired with the successor `DB`;
the asynchronous store writes of the source are applied sequentially, in
program order.
-/

noncomputable section

/-- Plugin configuration (`Config` in `src/index.ts`): `initialElo` is both the
starting rating and the logistic divisor, `k` is the K-factor. -/
structure Config where
  initialElo : ℝ
  k : ℝ

/-- A row of the `w-elo` table (`interface Elo`). -/
structure Elo where
  uid : String
  name : String
  elo : ℝ

/-- The `EloStatus` const enum: `Lose = 0`, `Win = 1`. -/
inductive EloStatus where
  | Lose
  | Win

/-- Numeric value of an `EloStatus`, as used in the delta arithmetic. -/
def EloStatus.val : EloStatus → ℝ
  | .Lose => 0
  | .Win => 1

/-- A row of the `w-elo-request` table (`interface EloRequest`), with the
JavaScript runtime value types (`number` as real). -/
structure EloRequest where
  rid : Nat
  src : String
  dest : String
  status : EloStatus
  srcDeltaElo : ℝ
  destDeltaElo : ℝ

/-- The `w-elo-request` table as declared to the ORM in `model.extend`: every
numeric column is declared `'integer'`. -/
structure EloRequestRow where
  rid : ℤ
  src : String
  dest : String
  status : ℤ
  srcDeltaElo : ℤ
  destDeltaElo : ℤ

/-- The whole backing store: the two tables plus the auto-increment counter of
`w-elo-request`. -/
structure DB where
  players : List Elo
  requests : List EloRequest
  nextRid : Nat

/-- Model of `ctx.database.set('w-elo', uid, \x7b elo \x7d)`: overwrite the `elo` field of
the row(s) whose primary key matches `uid`. -/
def setPlayerElo (db : DB) (uid : String) (elo : ℝ) : DB :=
  { db with players := db.players.map fun p => if p.uid == uid then { p with elo } else p }

/-- Model of `ctx.database.remove('w-elo-request', rid)`: delete the row(s) whose
primary key matches `rid`. -/
def removeRequest (db : DB) (rid : Nat) : DB :=
  { db with requests := db.requests.filter fun r => r.rid != rid }

/-- The `selfE` value of the update handler:
`1 / (1 + 10 ** (diffElo / config.initialElo))` with `diffElo = oppoElo - selfElo`. -/
def selfEOf (cfg : Config) (selfElo oppoElo : ℝ) : ℝ :=
  1 / (1 + (10 : ℝ) ^ ((oppoElo - selfElo) / cfg.initialElo))

/-- The `oppoE` value of the update handler:
`1 / (1 + 10 ** (- diffElo / config.initialElo))`. -/
def oppoEOf (cfg : Config) (selfElo oppoElo : ℝ) : ℝ :=
  1 / (1 + (10 : ℝ) ^ (-(oppoElo - selfElo) / cfg.initialElo))

/-- The challenger delta `selfDeltaElo = config.k * (status - selfE)`. -/
def selfDeltaEloOf (cfg : Config) (selfElo oppoElo : ℝ) (status : EloStatus) : ℝ :=
  cfg.k * (status.val - selfEOf cfg selfElo oppoElo)

/-- The opponent delta `oppoDeltaElo = config.k * (1 - status - oppoE)`. -/
def oppoDeltaEloOf (cfg : Config) (selfElo oppoElo : ℝ) (status : EloStatus) : ℝ :=
  cfg.k * (1 - status.val - oppoEOf cfg selfElo oppoElo)

/-- Result of the `elo.register` command. -/
inductive RegisterResult where
  | invalidName
  | duplicate (name : String)
  | ok (name : String) (elo : ℝ)

/-- Result of the `elo.check` command. -/
inductive CheckResult where
  | userNotFound (uid : String)
  | needRegister
  | ok (name : String) (elo : ℝ)

/-- Result of the `elo.update` command. -/
inductive UpdateResult where
  | needRegister
  | userNotFound (uid : String)
  | acceptOk (selfName oppoName : String)
      (selfNewElo selfDeltaElo oppoNewElo oppoDeltaElo : ℝ) (status : EloStatus)
  | requestDuplicate (selfName oppoName : String)
  | requestOk (selfName oppoName : String) (status : EloStatus)

/-- JavaScript `String.prototype.trim` (the source is TypeScript), modelled on
the character list: strip leading and trailing whitespace. -/
def jsTrim (s : String) : String :=
  ⟨((s.data.dropWhile Char.isWhitespace).reverse.dropWhile Char.isWhitespace).reverse⟩

/-- The `elo.register <name>` handler: trim the name, reject a blank name,
reject an already registered caller, else insert a fresh row at the configured
initial rating. -/
def register (cfg : Config) (db : DB) (uid rawName : String) : RegisterResult × DB :=
  if jsTrim rawName = "" then (.invalidName, db)
  else
    match db.players.find? (fun p => p.uid == uid) with
    | some self => (.duplicate self.name, db)
    | none =>
      (.ok (jsTrim rawName) cfg.initialElo,
        { db with players := db.players ++ [⟨uid, jsTrim rawName, cfg.initialElo⟩] })

/-- The `elo.check [user]` handler: purely a read. -/
def check (db : DB) (selfUid : String) (target : Option String) : CheckResult × DB :=
  match db.players.find? (fun p => p.uid == target.getD selfUid) with
  | some user => (.ok user.name user.elo, db)
  | none =>
    match target with
    | some t => (.userNotFound t, db)
    | none => (.needRegister, db)

/-- The `elo.update <user>` handler.  Branches, in source order: missing caller
row, missing opponent row, confirmation of an opposite-direction pending
request, rejection of a same-direction duplicate, and finally creation of a new
pending request.  The source re-reads both player rows before computing the
deltas; no write has happened since the first read, so the re-read values
coincide with `self.elo` and `oppo.elo`. -/
def update (cfg : Config) (db : DB) (selfId oppoId : String) (win : Bool) :
    UpdateResult × DB :=
  match db.players.find? (fun p => p.uid == selfId),
        db.players.find? (fun p => p.uid == oppoId) with
  | none, _ => (.needRegister, db)
  | some _, none => (.userNotFound oppoId, db)
  | some self, some oppo =>
    match db.requests.find? (fun r => r.src == oppoId && r.dest == selfId) with
    | some req =>
      (.acceptOk self.name oppo.name (self.elo + req.destDeltaElo) req.destDeltaElo
          (oppo.elo + req.srcDeltaElo) req.srcDeltaElo req.status,
        removeRequest
          (setPlayerElo (setPlayerElo db selfId (self.elo + req.destDeltaElo))
            oppoId (oppo.elo + req.srcDeltaElo))
          req.rid)
    | none =>
      match db.requests.find? (fun r => r.src == selfId && r.dest == oppoId) with
      | some _ => (.requestDuplicate self.name oppo.name, db)
      | none =>
        (.requestOk self.name oppo.name (if win then .Win else .Lose),
          { db with
              requests := db.requests ++
                [⟨db.nextRid, selfId, oppoId, if win then .Win else .Lose,
                  selfDeltaEloOf cfg self.elo oppo.elo (if win then .Win else .Lose),
                  oppoDeltaEloOf cfg self.elo oppo.elo (if win then .Win else .Lose)⟩],
              nextRid := db.nextRid + 1 })

/-- The `showDeltaElo` helper from `utils.ts`: a sign marker for positive deltas, then
`Math.round` (for reals, `round x = ⌊x + 1/2⌋`, exactly JavaScript's rounding). -/
def showDeltaElo (deltaElo : ℝ) : String :=
  (if deltaElo > 0 then ("+") else ("")) ++ toString (round deltaElo)

/-- The `showElo` helper from `utils.ts`: `Math.round` at display time. -/
def showElo (elo : ℝ) : String :=
  toString (round elo)

/-! ### Branch equations for the handlers -/

/-- Unregistered caller branch of `elo.update`. -/
theorem update_needRegister_eq (cfg : Config) (db : DB) (selfId oppoId : String) (win : Bool)
    (hself : db.players.find? (fun p => p.uid == selfId) = none) :
    update cfg db selfId oppoId win = (.needRegister, db) := by
  unfold update
  rw [hself]

/-- Unregistered opponent branch of `elo.update`. -/
theorem update_userNotFound_eq (cfg : Config) (db : DB) (selfId oppoId : String) (win : Bool)
    (self : Elo)
    (hself : db.players.find? (fun p => p.uid == selfId) = some self)
    (hoppo : db.players.find? (fun p => p.uid == oppoId) = none) :
    update cfg db selfId oppoId win = (.userNotFound oppoId, db) := by
  unfold update
  rw [hself, hoppo]

/-- Confirmation branch of `elo.update`: a pending request proposed by the
opponent against the caller exists. -/
theorem update_confirm_eq (cfg : Config) (db : DB) (selfId oppoId : String) (win : Bool)
    (self oppo : Elo) (req : EloRequest)
    (hself : db.players.find? (fun p => p.uid == selfId) = some self)
    (hoppo : db.players.find? (fun p => p.uid == oppoId) = some oppo)
    (hreq : db.requests.find? (fun r => r.src == oppoId && r.dest == selfId) = some req) :
    update cfg db selfId oppoId win =
      (.acceptOk self.name oppo.name (self.elo + req.destDeltaElo) req.destDeltaElo
          (oppo.elo + req.srcDeltaElo) req.srcDeltaElo req.status,
        removeRequest
          (setPlayerElo (setPlayerElo db selfId (self.elo + req.destDeltaElo))
            oppoId (oppo.elo + req.srcDeltaElo))
          req.rid) := by
  unfold update
  rw [hself, hoppo, hreq]

/-- Duplicate branch of `elo.update`: the caller already proposed against this
opponent. -/
theorem update_dup_eq (cfg : Config) (db : DB) (selfId oppoId : String) (win : Bool)
    (self oppo : Elo) (req : EloRequest)
    (hself : db.players.find? (fun p => p.uid == selfId) = some self)
    (hoppo : db.players.find? (fun p => p.uid == oppoId) = some oppo)
    (hrev : db.requests.find? (fun r => r.src == oppoId && r.dest == selfId) = none)
    (hfwd : db.requests.find? (fun r => r.src == selfId && r.dest == oppoId) = some req) :
    update cfg db selfId oppoId win = (.requestDuplicate self.name oppo.name, db) := by
  unfold update
  rw [hself, hoppo, hrev, hfwd]

/-- Proposal branch of `elo.update`: no pending request in either direction. -/
theorem update_propose_eq (cfg : Config) (db : DB) (selfId oppoId : String) (win : Bool)
    (self oppo : Elo)
    (hself : db.players.find? (fun p => p.uid == selfId) = some self)
    (hoppo : db.players.find? (fun p => p.uid == oppoId) = some oppo)
    (hrev : db.requests.find? (fun r => r.src == oppoId && r.dest == selfId) = none)
    (hfwd : db.requests.find? (fun r => r.src == selfId && r.dest == oppoId) = none) :
    update cfg db selfId oppoId win =
      (.requestOk self.name oppo.name (if win then .Win else .Lose),
        { db with
            requests := db.requests ++
              [⟨db.nextRid, selfId, oppoId, if win then .Win else .Lose,
                selfDeltaEloOf cfg self.elo oppo.elo (if win then .Win else .Lose),
                oppoDeltaEloOf cfg self.elo oppo.elo (if win then .Win else .Lose)⟩],
            nextRid := db.nextRid + 1 }) := by
  unfold update
  rw [hself, hoppo, hrev, hfwd]

/-- Duplicate branch of `elo.register`. -/
theorem register_dup_eq (cfg : Config) (db : DB) (uid rawName : String) (self : Elo)
    (hname : jsTrim rawName ≠ "")
    (hself : db.players.find? (fun p => p.uid == uid) = some self) :
    register cfg db uid rawName = (.duplicate self.name, db) := by
  unfold register
  rw [if_neg hname, hself]

/-- The register handler never touches the request table. -/
theorem register_requests_eq (cfg : Config) (db : DB) (uid rawName : String) :
    ((register cfg db uid rawName).2).requests = db.requests := by
  unfold register
  by_cases hname : jsTrim rawName = ""
  · rw [if_pos hname]
  · rw [if_neg hname]
    cases hself : db.players.find? (fun p => p.uid == uid) <;> rfl

/-- The check handler never writes to the store. -/
theorem check_db_eq (db : DB) (selfUid : String) (target : Option String) :
    (check db selfUid target).2 = db := by
  unfold check
  cases hfind : db.players.find? (fun p => p.uid == target.getD selfUid)
  · cases target <;> rfl
  · rfl

/-! ### Arithmetic facts about the logistic expectation -/

/-- The logistic expectation `1 / (1 + 10 ^ d)` is positive. -/
theorem logistic_pos (d : ℝ) : 0 < 1 / (1 + (10 : ℝ) ^ d) := by
  have h : (0 : ℝ) < (10 : ℝ) ^ d := Real.rpow_pos_of_pos (by norm_num) d
  positivity

/-- The logistic expectation `1 / (1 + 10 ^ d)` is below one. -/
theorem logistic_lt_one (d : ℝ) : 1 / (1 + (10 : ℝ) ^ d) < 1 := by
  have h : (0 : ℝ) < (10 : ℝ) ^ d := Real.rpow_pos_of_pos (by norm_num) d
  rw [div_lt_one (by linarith)]
  linarith

/-- The two expectations of one matchup are complementary:
`1 / (1 + 10 ^ d) + 1 / (1 + 10 ^ (-d)) = 1`. -/
theorem logistic_complement (d : ℝ) :
    1 / (1 + (10 : ℝ) ^ d) + 1 / (1 + (10 : ℝ) ^ (-d)) = 1 := by
  have h : (0 : ℝ) < (10 : ℝ) ^ d := Real.rpow_pos_of_pos (by norm_num) d
  have hneg : (10 : ℝ) ^ (-d) = ((10 : ℝ) ^ d)⁻¹ := Real.rpow_neg (by norm_num) d
  have h1 : (1 : ℝ) + (10 : ℝ) ^ d ≠ 0 := by positivity
  have h2 : (1 : ℝ) + ((10 : ℝ) ^ d)⁻¹ ≠ 0 := by positivity
  rw [hneg]
  field_simp
  ring

/-- The `selfE` and `oppoE` values of one proposal sum to one. -/
theorem selfEOf_add_oppoEOf (cfg : Config) (selfElo oppoElo : ℝ) :
    selfEOf cfg selfElo oppoElo + oppoEOf cfg selfElo oppoElo = 1 := by
  unfold selfEOf oppoEOf
  rw [neg_div]
  exact logistic_complement ((oppoElo - selfElo) / cfg.initialElo)

/-! ### Reading a player row through the rating writes -/

/-- Looking a uid up after `setPlayerElo` is looking it up before and patching
the `elo` field when the uid matches. -/
theorem find?_uid_setPlayerElo (db : DB) (uid u : String) (v : ℝ) :
    (setPlayerElo db uid v).players.find? (fun p => p.uid == u)
      = (db.players.find? (fun p => p.uid == u)).map
          (fun p => if p.uid == uid then { p with elo := v } else p) := by
  unfold setPlayerElo
  rw [List.find?_map]
  have hp : ((fun p => p.uid == u) ∘ fun p : Elo => if p.uid == uid then { p with elo := v } else p)
      = fun p : Elo => p.uid == u := by
    funext p
    by_cases h : p.uid == uid <;> simp [Function.comp, h]
  rw [hp]

/-- Writing a rating does not touch the player list structure other fields;
the request table is untouched. -/
@[simp] theorem setPlayerElo_requests (db : DB) (uid : String) (v : ℝ) :
    (setPlayerElo db uid v).requests = db.requests := rfl

/-- Deleting a request does not touch the player table. -/
@[simp] theorem removeRequest_players (db : DB) (rid : Nat) :
    (removeRequest db rid).players = db.players := rfl

/-- Deleting a request keeps exactly the rows with a different primary key. -/
theorem removeRequest_requests (db : DB) (rid : Nat) :
    (removeRequest db rid).requests = db.requests.filter (fun r => r.rid != rid) := rfl

/-! ### Concrete fixtures -/

/-- Fixture identity of player A. -/
def uidA : String := "a"

/-- Fixture identity of player B. -/
def uidB : String := "b"

/-- Fixture display name of player A. -/
def nameA : String := "Alice"

/-- Fixture display name of player B. -/
def nameB : String := "Bob"

/-- Default configuration: initial rating 400, K-factor 32. -/
def cfg0 : Config := ⟨400, 32⟩

/-- Two registered players at the initial rating, no pending requests. -/
def dbAB : DB := ⟨[⟨uidA, nameA, 400⟩, ⟨uidB, nameB, 400⟩], [], 1⟩

/-- Two registered players and a pending request proposed by B against A,
declared as a win for B, with precomputed deltas `+16` / `-16`. -/
def dbRev : DB :=
  ⟨[⟨uidA, nameA, 400⟩, ⟨uidB, nameB, 400⟩], [⟨1, uidB, uidA, EloStatus.Win, 16, -16⟩], 2⟩

/-- Two registered players and a pending request proposed by A against B. -/
def dbFwd : DB :=
  ⟨[⟨uidA, nameA, 400⟩, ⟨uidB, nameB, 400⟩], [⟨1, uidA, uidB, EloStatus.Win, 16, -16⟩], 2⟩

/-! ### Claim C1 -/

/-- Claim C1: when a `challenge(caller, opponent, outcome)` call finds a
pending request with `src = opponent` and `dest = caller`, the caller's new
rating is the caller's current rating plus the stored `destDeltaElo`, the
opponent's new rating is the opponent's current rating plus the stored
`srcDeltaElo`, both updates are written to the store, and the pending request
is removed. -/
theorem elo_confirm_commits (cfg : Config) (db : DB) (selfId oppoId : String) (win : Bool)
    (self oppo : Elo) (req : EloRequest)
    (hself : db.players.find? (fun p => p.uid == selfId) = some self)
    (hoppo : db.players.find? (fun p => p.uid == oppoId) = some oppo)
    (hreq : db.requests.find? (fun r => r.src == oppoId && r.dest == selfId) = some req)
    (hne : selfId ≠ oppoId) :
    (update cfg db selfId oppoId win).1
      = .acceptOk self.name oppo.name (self.elo + req.destDeltaElo) req.destDeltaElo
          (oppo.elo + req.srcDeltaElo) req.srcDeltaElo req.status
    ∧ ((update cfg db selfId oppoId win).2.players.find? (fun p => p.uid == selfId)).map Elo.elo
      = some (self.elo + req.destDeltaElo)
    ∧ ((update cfg db selfId oppoId win).2.players.find? (fun p => p.uid == oppoId)).map Elo.elo
      = some (oppo.elo + req.srcDeltaElo)
    ∧ ∀ r ∈ (update cfg db selfId oppoId win).2.requests, r.rid ≠ req.rid := by
  have hsu : self.uid = selfId := by
    have h := List.find?_some hself
    simpa using h
  have hou : oppo.uid = oppoId := by
    have h := List.find?_some hoppo
    simpa using h
  rw [update_confirm_eq cfg db selfId oppoId win self oppo req hself hoppo hreq]
  refine ⟨rfl, ?_, ?_, ?_⟩
  · rw [removeRequest_players, find?_uid_setPlayerElo, find?_uid_setPlayerElo, hself]
    simp [hsu, hne]
  · rw [removeRequest_players, find?_uid_setPlayerElo, find?_uid_setPlayerElo, hoppo]
    simp [hou, Ne.symm hne]
  · intro r hr
    rw [removeRequest_requests, setPlayerElo_requests, setPlayerElo_requests] at hr
    have h := List.mem_filter.mp hr
    simpa using h.2

/-- Witness for claim C1: player B proposed a win against A with deltas
`+16` / `-16`; A's confirming call commits `400 - 16` to A and `400 + 16` to B
and removes the request. -/
theorem elo_confirm_commits_witness :
    (update cfg0 dbRev uidA uidB true).1
      = .acceptOk nameA nameB ((400 : ℝ) + (-16)) (-16) ((400 : ℝ) + 16) 16 EloStatus.Win
    ∧ ((update cfg0 dbRev uidA uidB true).2.players.find? (fun p => p.uid == uidA)).map Elo.elo
      = some ((400 : ℝ) + (-16))
    ∧ ((update cfg0 dbRev uidA uidB true).2.players.find? (fun p => p.uid == uidB)).map Elo.elo
      = some ((400 : ℝ) + 16)
    ∧ ∀ r ∈ (update cfg0 dbRev uidA uidB true).2.requests, r.rid ≠ 1 :=
  elo_confirm_commits cfg0 dbRev uidA uidB true ⟨uidA, nameA, 400⟩ ⟨uidB, nameB, 400⟩
    ⟨1, uidB, uidA, EloStatus.Win, 16, -16⟩ rfl rfl rfl (by decide)

/-! ### Claim C2 -/

/-- Spec-side formula (for the refinement comparison):
`expectedCaller = 1 / (1 + 10 ^ ((opponentRating - callerRating) / S))`. -/
def expectedCaller (S callerRating opponentRating : ℝ) : ℝ :=
  1 / (1 + (10 : ℝ) ^ ((opponentRating - callerRating) / S))

/-- Spec-side formula: `expectedOpponent = 1 / (1 + 10 ^ (-ratingDiff / S))`. -/
def expectedOpponent (S callerRating opponentRating : ℝ) : ℝ :=
  1 / (1 + (10 : ℝ) ^ (-(opponentRating - callerRating) / S))

/-- Spec-side formula: `callerDelta = K * (actualCaller - expectedCaller)`. -/
def callerDelta (K S callerRating opponentRating actual : ℝ) : ℝ :=
  K * (actual - expectedCaller S callerRating opponentRating)

/-- Spec-side formula: `opponentDelta = K * ((1 - actualCaller) - expectedOpponent)`. -/
def opponentDelta (K S callerRating opponentRating actual : ℝ) : ℝ :=
  K * ((1 - actual) - expectedOpponent S callerRating opponentRating)

/-- Claim C2: a new proposal stores deltas given by the Elo formula with the
scale constant `S` equal to the configured initial rating and
`actualCaller = 1` for a declared win, `0` for a declared loss. -/
theorem elo_propose_formula (cfg : Config) (db : DB) (selfId oppoId : String) (win : Bool)
    (self oppo : Elo)
    (hself : db.players.find? (fun p => p.uid == selfId) = some self)
    (hoppo : db.players.find? (fun p => p.uid == oppoId) = some oppo)
    (hrev : db.requests.find? (fun r => r.src == oppoId && r.dest == selfId) = none)
    (hfwd : db.requests.find? (fun r => r.src == selfId && r.dest == oppoId) = none) :
    ∃ r : EloRequest,
      (update cfg db selfId oppoId win).2.requests = db.requests ++ [r]
      ∧ r.src = selfId ∧ r.dest = oppoId
      ∧ r.srcDeltaElo
          = callerDelta cfg.k cfg.initialElo self.elo oppo.elo (if win then 1 else 0)
      ∧ r.destDeltaElo
          = opponentDelta cfg.k cfg.initialElo self.elo oppo.elo (if win then 1 else 0) := by
  rw [update_propose_eq cfg db selfId oppoId win self oppo hself hoppo hrev hfwd]
  refine ⟨_, rfl, rfl, rfl, ?_, ?_⟩
  · cases win <;>
      simp [selfDeltaEloOf, callerDelta, expectedCaller, selfEOf, EloStatus.val]
  · cases win <;>
      simp [oppoDeltaEloOf, opponentDelta, expectedOpponent, oppoEOf, EloStatus.val]

/-- Witness for claim C2 at two players of equal rating 400, caller declaring
a win. -/
theorem elo_propose_formula_witness :
    ∃ r : EloRequest,
      (update cfg0 dbAB uidA uidB true).2.requests = dbAB.requests ++ [r]
      ∧ r.src = uidA ∧ r.dest = uidB
      ∧ r.srcDeltaElo = callerDelta cfg0.k cfg0.initialElo 400 400 1
      ∧ r.destDeltaElo = opponentDelta cfg0.k cfg0.initialElo 400 400 1 :=
  elo_propose_formula cfg0 dbAB uidA uidB true ⟨uidA, nameA, 400⟩ ⟨uidB, nameB, 400⟩
    rfl rfl rfl rfl

/-! ### Claim C5 -/

/-- Claim C5: for all ratings and every K, the challenger delta (declared
outcome, caller's perspective) and the opponent delta (opposite outcome,
opponent's perspective) of one proposal sum to zero. -/
theorem elo_deltas_zero_sum (cfg : Config) (selfElo oppoElo : ℝ) (status : EloStatus) :
    selfDeltaEloOf cfg selfElo oppoElo status + oppoDeltaEloOf cfg selfElo oppoElo status = 0 := by
  have h := selfEOf_add_oppoEOf cfg selfElo oppoElo
  unfold selfDeltaEloOf oppoDeltaEloOf
  linear_combination (-cfg.k) * h

/-! ### Claim C9 -/

/-- A declared win gives the challenger a strictly positive delta. -/
theorem selfDelta_win_pos (cfg : Config) (r₁ r₂ : ℝ) (hk : 0 < cfg.k) :
    0 < selfDeltaEloOf cfg r₁ r₂ .Win := by
  unfold selfDeltaEloOf selfEOf EloStatus.val
  have h := logistic_lt_one ((r₂ - r₁) / cfg.initialElo)
  exact mul_pos hk (by linarith)

/-- A declared win gives the opponent a strictly negative delta. -/
theorem oppoDelta_win_neg (cfg : Config) (r₁ r₂ : ℝ) (hk : 0 < cfg.k) :
    oppoDeltaEloOf cfg r₁ r₂ .Win < 0 := by
  unfold oppoDeltaEloOf oppoEOf EloStatus.val
  have h := logistic_pos (-(r₂ - r₁) / cfg.initialElo)
  exact mul_neg_of_pos_of_neg hk (by linarith)

/-- A declared loss gives the challenger a strictly negative delta. -/
theorem selfDelta_lose_neg (cfg : Config) (r₁ r₂ : ℝ) (hk : 0 < cfg.k) :
    selfDeltaEloOf cfg r₁ r₂ .Lose < 0 := by
  unfold selfDeltaEloOf selfEOf EloStatus.val
  have h := logistic_pos ((r₂ - r₁) / cfg.initialElo)
  exact mul_neg_of_pos_of_neg hk (by linarith)

/-- A declared loss gives the opponent a strictly positive delta. -/
theorem oppoDelta_lose_pos (cfg : Config) (r₁ r₂ : ℝ) (hk : 0 < cfg.k) :
    0 < oppoDeltaEloOf cfg r₁ r₂ .Lose := by
  unfold oppoDeltaEloOf oppoEOf EloStatus.val
  have h := logistic_lt_one (-(r₂ - r₁) / cfg.initialElo)
  exact mul_pos hk (by linarith)

/-- Claim C9: with a positive K-factor, a proposal declaring a win stores a
strictly positive challenger delta and a strictly negative opponent delta, and
a proposal declaring a loss stores the opposite signs. -/
theorem elo_propose_delta_signs (cfg : Config) (db : DB) (selfId oppoId : String) (win : Bool)
    (self oppo : Elo)
    (hself : db.players.find? (fun p => p.uid == selfId) = some self)
    (hoppo : db.players.find? (fun p => p.uid == oppoId) = some oppo)
    (hrev : db.requests.find? (fun r => r.src == oppoId && r.dest == selfId) = none)
    (hfwd : db.requests.find? (fun r => r.src == selfId && r.dest == oppoId) = none)
    (hk : 0 < cfg.k) :
    ∃ r : EloRequest,
      (update cfg db selfId oppoId win).2.requests = db.requests ++ [r]
      ∧ (win = true → 0 < r.srcDeltaElo ∧ r.destDeltaElo < 0)
      ∧ (win = false → r.srcDeltaElo < 0 ∧ 0 < r.destDeltaElo) := by
  rw [update_propose_eq cfg db selfId oppoId win self oppo hself hoppo hrev hfwd]
  refine ⟨_, rfl, ?_, ?_⟩
  · intro hw
    subst hw
    exact ⟨selfDelta_win_pos cfg self.elo oppo.elo hk, oppoDelta_win_neg cfg self.elo oppo.elo hk⟩
  · intro hl
    subst hl
    exact ⟨selfDelta_lose_neg cfg self.elo oppo.elo hk, oppoDelta_lose_pos cfg self.elo oppo.elo hk⟩

/-- Witness for claim C9 at equal ratings 400 and K = 32. -/
theorem elo_propose_delta_signs_witness :
    ∃ r : EloRequest,
      (update cfg0 dbAB uidA uidB true).2.requests = dbAB.requests ++ [r]
      ∧ (true = true → 0 < r.srcDeltaElo ∧ r.destDeltaElo < 0)
      ∧ (true = false → r.srcDeltaElo < 0 ∧ 0 < r.destDeltaElo) :=
  elo_propose_delta_signs cfg0 dbAB uidA uidB true ⟨uidA, nameA, 400⟩ ⟨uidB, nameB, 400⟩
    rfl rfl rfl rfl (by norm_num : (0 : ℝ) < 32)

/-! ### Claim C3 -/

/-- One caller action against the plugin. -/
inductive Op where
  | reg (uid rawName : String)
  | chk (selfUid : String) (target : Option String)
  | upd (selfUid oppoUid : String) (win : Bool)

/-- Store effect of one action. -/
def step (cfg : Config) (db : DB) : Op → DB
  | .reg uid rawName => (register cfg db uid rawName).2
  | .chk selfUid target => (check db selfUid target).2
  | .upd selfUid oppoUid win => (update cfg db selfUid oppoUid win).2

/-- The empty initial store. -/
def initDB : DB := ⟨[], [], 1⟩

/-- Run a sequence of actions from a store state. -/
def run (cfg : Config) (db : DB) (ops : List Op) : DB :=
  ops.foldl (step cfg) db

/-- Two pending requests cover the same unordered pair of players. -/
def samePair (r₁ r₂ : EloRequest) : Prop :=
  (r₁.src = r₂.src ∧ r₁.dest = r₂.dest) ∨ (r₁.src = r₂.dest ∧ r₁.dest = r₂.src)

/-- No two distinct pending requests cover the same unordered pair. -/
def pairwiseDistinctPairs (db : DB) : Prop :=
  db.requests.Pairwise fun r₁ r₂ => ¬ samePair r₁ r₂

/-- The update handler preserves the unordered-pair uniqueness of pending requests. -/
theorem update_preserves_pairs (cfg : Config) (db : DB) (selfId oppoId : String) (win : Bool)
    (h : pairwiseDistinctPairs db) :
    pairwiseDistinctPairs (update cfg db selfId oppoId win).2 := by
  unfold pairwiseDistinctPairs at h ⊢
  cases hself : db.players.find? (fun p => p.uid == selfId) with
  | none =>
    rw [update_needRegister_eq cfg db selfId oppoId win hself]
    exact h
  | some self =>
    cases hoppo : db.players.find? (fun p => p.uid == oppoId) with
    | none =>
      rw [update_userNotFound_eq cfg db selfId oppoId win self hself hoppo]
      exact h
    | some oppo =>
      cases hrev : db.requests.find? (fun r => r.src == oppoId && r.dest == selfId) with
      | some req =>
        rw [update_confirm_eq cfg db selfId oppoId win self oppo req hself hoppo hrev,
          removeRequest_requests, setPlayerElo_requests, setPlayerElo_requests]
        exact List.Pairwise.sublist (List.filter_sublist _) h
      | none =>
        cases hfwd : db.requests.find? (fun r => r.src == selfId && r.dest == oppoId) with
        | some req =>
          rw [update_dup_eq cfg db selfId oppoId win self oppo req hself hoppo hrev hfwd]
          exact h
        | none =>
          rw [update_propose_eq cfg db selfId oppoId win self oppo hself hoppo hrev hfwd]
          rw [List.pairwise_append]
          refine ⟨h, List.pairwise_singleton _ _, ?_⟩
          intro a ha b hb
          rw [List.mem_singleton] at hb
          subst hb
          intro hsp
          simp only [samePair] at hsp
          rcases hsp with ⟨hs, hd⟩ | ⟨hs, hd⟩
          · refine List.find?_eq_none.mp hfwd a ha ?_
            simp only [Bool.and_eq_true, beq_iff_eq]
            exact ⟨hs, hd⟩
          · refine List.find?_eq_none.mp hrev a ha ?_
            simp only [Bool.and_eq_true, beq_iff_eq]
            exact ⟨hs, hd⟩

/-- One step of any action preserves the unordered-pair uniqueness. -/
theorem step_preserves_pairs (cfg : Config) (db : DB) (op : Op)
    (h : pairwiseDistinctPairs db) : pairwiseDistinctPairs (step cfg db op) := by
  cases op with
  | reg uid rawName =>
    unfold pairwiseDistinctPairs at h ⊢
    rw [step, register_requests_eq]
    exact h
  | chk selfUid target =>
    unfold pairwiseDistinctPairs at h ⊢
    rw [step, check_db_eq]
    exact h
  | upd selfUid oppoUid win =>
    exact update_preserves_pairs cfg db selfUid oppoUid win h

/-- Every run preserves the unordered-pair uniqueness. -/
theorem run_preserves_pairs (cfg : Config) (ops : List Op) :
    ∀ db : DB, pairwiseDistinctPairs db → pairwiseDistinctPairs (run cfg db ops) := by
  induction ops with
  | nil => exact fun db h => h
  | cons op rest ih =>
    exact fun db h => ih (step cfg db op) (step_preserves_pairs cfg db op h)

/-- A pairwise pair-distinct list has at most one element matching any
predicate that forces the same unordered pair. -/
theorem countP_le_one_of_pairwise {l : List EloRequest} {p : EloRequest → Bool}
    (hl : l.Pairwise fun r₁ r₂ => ¬ samePair r₁ r₂)
    (hp : ∀ r₁ r₂, p r₁ = true → p r₂ = true → samePair r₁ r₂) :
    l.countP p ≤ 1 := by
  induction l with
  | nil => simp
  | cons a t ih =>
    rcases List.pairwise_cons.mp hl with ⟨ha, ht⟩
    by_cases hpa : p a = true
    · have ht0 : t.countP p = 0 :=
        List.countP_eq_zero.mpr fun b hb hpb => ha b hb (hp a b hpa hpb)
      rw [List.countP_cons, ht0, if_pos hpa]
    · have h2 := ih ht
      rw [List.countP_cons, if_neg hpa]
      omega

/-- Claim C3: in every store state reachable by register/inspect/challenge
actions from the empty store, each unordered pair of players is covered by at
most one pending request (in either direction). -/
theorem elo_pair_at_most_one (cfg : Config) (ops : List Op) (A B : String) :
    (run cfg initDB ops).requests.countP
        (fun r => (r.src == A && r.dest == B) || (r.src == B && r.dest == A)) ≤ 1 := by
  have hpw := run_preserves_pairs cfg ops initDB List.Pairwise.nil
  refine countP_le_one_of_pairwise hpw ?_
  intro r₁ r₂ h1 h2
  simp only [Bool.or_eq_true, Bool.and_eq_true, beq_iff_eq] at h1 h2
  unfold samePair
  rcases h1 with ⟨hs1, hd1⟩ | ⟨hs1, hd1⟩ <;> rcases h2 with ⟨hs2, hd2⟩ | ⟨hs2, hd2⟩
  · exact Or.inl ⟨hs1.trans hs2.symm, hd1.trans hd2.symm⟩
  · exact Or.inr ⟨hs1.trans hd2.symm, hd1.trans hs2.symm⟩
  · exact Or.inr ⟨hs1.trans hd2.symm, hd1.trans hs2.symm⟩
  · exact Or.inl ⟨hs1.trans hs2.symm, hd1.trans hd2.symm⟩

/-! ### Claim C4 -/

/-- The store after A proposes a win against B starting from `dbAB`. -/
def dbAfterPropose : DB := (update cfg0 dbAB uidA uidB true).2

/-- The store after B's confirming call on that proposal. -/
def dbAfterConfirm : DB := (update cfg0 dbAfterPropose uidB uidA true).2

/-- Counterexample for claim C4: after B's confirmation has committed the
ratings and removed the pending request, a second identical call by B does not
fail with a nothing-pending error (the code has no such result): it is handled
as a brand-new proposal and creates a fresh pending request B → A. -/
theorem elo_second_confirm_counterexample :
    (update cfg0 dbAfterConfirm uidB uidA true).1 = .requestOk nameB nameA EloStatus.Win
    ∧ dbAfterConfirm.requests = []
    ∧ (update cfg0 dbAfterConfirm uidB uidA true).2.requests.length = 1 :=
  ⟨rfl, rfl, rfl⟩

/-- Claim C4 (amended): after the confirmation, a second identical call finds
no pending request in either direction and is handled as a new proposal: it
returns the proposal-created result, applies no rating deltas (the player
table is unchanged), and creates one new pending request. -/
theorem elo_second_confirm_is_new_proposal (cfg : Config) (db : DB) (selfId oppoId : String)
    (win : Bool) (self oppo : Elo)
    (hself : db.players.find? (fun p => p.uid == selfId) = some self)
    (hoppo : db.players.find? (fun p => p.uid == oppoId) = some oppo)
    (hrev : db.requests.find? (fun r => r.src == oppoId && r.dest == selfId) = none)
    (hfwd : db.requests.find? (fun r => r.src == selfId && r.dest == oppoId) = none) :
    (update cfg db selfId oppoId win).1
      = .requestOk self.name oppo.name (if win then .Win else .Lose)
    ∧ (update cfg db selfId oppoId win).2.players = db.players
    ∧ (update cfg db selfId oppoId win).2.requests.length = db.requests.length + 1 := by
  rw [update_propose_eq cfg db selfId oppoId win self oppo hself hoppo hrev hfwd]
  exact ⟨rfl, rfl, by simp⟩

/-- Witness for the amended claim C4, at a store with both players registered
and no pending request. -/
theorem elo_second_confirm_is_new_proposal_witness :
    (update cfg0 dbAB uidB uidA true).1
      = .requestOk nameB nameA (if true then .Win else .Lose)
    ∧ (update cfg0 dbAB uidB uidA true).2.players = dbAB.players
    ∧ (update cfg0 dbAB uidB uidA true).2.requests.length = dbAB.requests.length + 1 :=
  elo_second_confirm_is_new_proposal cfg0 dbAB uidB uidA true
    ⟨uidB, nameB, 400⟩ ⟨uidA, nameA, 400⟩ rfl rfl rfl rfl

/-! ### Claim C6 -/

/-- Matching a fixed unordered pair in either direction forces `samePair`. -/
theorem pairPred_forces_samePair (A B : String) (r₁ r₂ : EloRequest)
    (h1 : ((r₁.src == A && r₁.dest == B) || (r₁.src == B && r₁.dest == A)) = true)
    (h2 : ((r₂.src == A && r₂.dest == B) || (r₂.src == B && r₂.dest == A)) = true) :
    samePair r₁ r₂ := by
  simp only [Bool.or_eq_true, Bool.and_eq_true, beq_iff_eq] at h1 h2
  unfold samePair
  rcases h1 with ⟨hs1, hd1⟩ | ⟨hs1, hd1⟩ <;> rcases h2 with ⟨hs2, hd2⟩ | ⟨hs2, hd2⟩
  · exact Or.inl ⟨hs1.trans hs2.symm, hd1.trans hd2.symm⟩
  · exact Or.inr ⟨hs1.trans hd2.symm, hd1.trans hs2.symm⟩
  · exact Or.inr ⟨hs1.trans hd2.symm, hd1.trans hs2.symm⟩
  · exact Or.inl ⟨hs1.trans hs2.symm, hd1.trans hd2.symm⟩

/-- Claim C6: if the caller already proposed against this opponent, the call
fails as a duplicate, writes nothing to the store, and exactly one pending
request covers the pair. -/
theorem elo_duplicate_request (cfg : Config) (db : DB) (selfId oppoId : String) (win : Bool)
    (self oppo : Elo) (req : EloRequest)
    (hself : db.players.find? (fun p => p.uid == selfId) = some self)
    (hoppo : db.players.find? (fun p => p.uid == oppoId) = some oppo)
    (hrev : db.requests.find? (fun r => r.src == oppoId && r.dest == selfId) = none)
    (hfwd : db.requests.find? (fun r => r.src == selfId && r.dest == oppoId) = some req)
    (hpw : pairwiseDistinctPairs db) :
    update cfg db selfId oppoId win = (.requestDuplicate self.name oppo.name, db)
    ∧ db.requests.countP
        (fun r => (r.src == selfId && r.dest == oppoId) || (r.src == oppoId && r.dest == selfId))
      = 1 := by
  refine ⟨update_dup_eq cfg db selfId oppoId win self oppo req hself hoppo hrev hfwd, ?_⟩
  have hle := countP_le_one_of_pairwise hpw (pairPred_forces_samePair selfId oppoId)
  have hprop := List.find?_some hfwd
  have hge : 0 < db.requests.countP
      (fun r => (r.src == selfId && r.dest == oppoId) || (r.src == oppoId && r.dest == selfId)) :=
    List.countP_pos_iff.mpr ⟨req, List.mem_of_find?_eq_some hfwd, by simp [hprop]⟩
  omega

/-- Witness for claim C6: with A's proposal against B pending, a second A → B
call is rejected and the pair still has exactly one pending request. -/
theorem elo_duplicate_request_witness :
    update cfg0 dbFwd uidA uidB true = (.requestDuplicate nameA nameB, dbFwd)
    ∧ dbFwd.requests.countP
        (fun r => (r.src == uidA && r.dest == uidB) || (r.src == uidB && r.dest == uidA))
      = 1 :=
  elo_duplicate_request cfg0 dbFwd uidA uidB true ⟨uidA, nameA, 400⟩ ⟨uidB, nameB, 400⟩
    ⟨1, uidA, uidB, EloStatus.Win, 16, -16⟩ rfl rfl rfl rfl (List.pairwise_singleton _ _)

/-! ### Claim C7 -/

/-- Fixture raw name submitted at the second registration attempt. -/
def nameX : String := "Xavier"

/-- Claim C7: registering an identity that already has a player record fails
with the duplicate error reporting the stored name and performs no store
write. -/
theorem elo_register_duplicate (cfg : Config) (db : DB) (uid rawName : String) (self : Elo)
    (hname : jsTrim rawName ≠ "")
    (hself : db.players.find? (fun p => p.uid == uid) = some self) :
    register cfg db uid rawName = (.duplicate self.name, db) := by
  unfold register
  rw [if_neg hname, hself]

/-- Witness for claim C7: registering A's identity again under a different
name reports the stored name and leaves the store untouched. -/
theorem elo_register_duplicate_witness :
    register cfg0 dbAB uidA nameX = (.duplicate nameA, dbAB) :=
  elo_register_duplicate cfg0 dbAB uidA nameX ⟨uidA, nameA, 400⟩ (by decide) rfl

/-! ### Claim C8 -/

/-- At ratings 400 vs 800 with the default configuration, the exact challenger
delta of a declared win is `320 / 11`. -/
theorem selfDelta_400_800 : selfDeltaEloOf cfg0 400 800 .Win = 320 / 11 := by
  have h1 : ((800 : ℝ) - 400) / (400 : ℝ) = 1 := by norm_num
  simp only [selfDeltaEloOf, selfEOf, EloStatus.val, cfg0]
  rw [h1, Real.rpow_one]
  norm_num

/-- The value `320 / 11` is not an integer. -/
theorem not_intCast_eq_320_div_11 : ∀ z : ℤ, (z : ℝ) ≠ 320 / 11 := by
  intro z hz
  have h : (z : ℝ) * 11 = 320 := by rw [hz]; norm_num
  have h2 : z * 11 = 320 := by exact_mod_cast h
  omega

/-- The display rounding of the exact delta `320 / 11`. -/
theorem round_320_div_11 : round ((320 : ℝ) / 11) = 29 := by
  rw [round_eq, Int.floor_eq_iff]
  constructor <;> norm_num

/-- Counterexample for claim C8: the proposal at ratings 400 vs 800 with the
default K = 32 produces the exact challenger delta `320 / 11`, and no row of
the integer-typed `w-elo-request` schema can hold that value exactly — exact
real-valued storage is impossible under the declared column types. -/
theorem elo_exact_storage_counterexample :
    ¬ ∃ row : EloRequestRow, (row.srcDeltaElo : ℝ) = selfDeltaEloOf cfg0 400 800 .Win := by
  rintro ⟨row, hrow⟩
  rw [selfDelta_400_800] at hrow
  exact not_intCast_eq_320_div_11 row.srcDeltaElo hrow

/-- Claim C8 (amended): the engine computes real-valued, in general
non-integral deltas (`320 / 11` at ratings 400 vs 800, K = 32), the declared
store schema types every rating and delta column as an integer and therefore
cannot hold such a value exactly, and display formatting applies `Math.round`
on top. -/
theorem elo_storage_rounding :
    selfDeltaEloOf cfg0 400 800 .Win = 320 / 11
    ∧ (¬ ∃ row : EloRequestRow, (row.srcDeltaElo : ℝ) = 320 / 11)
    ∧ showDeltaElo (320 / 11) = "+29" := by
  refine ⟨selfDelta_400_800, ?_, ?_⟩
  · rintro ⟨row, hrow⟩
    exact not_intCast_eq_320_div_11 row.srcDeltaElo hrow
  · unfold showDeltaElo
    rw [if_pos (by norm_num : (320 : ℝ) / 11 > 0), round_320_div_11]
    rfl

/-! ### Claim C10 -/

/-- The rating write changes no row's uid. -/
theorem eloPatch_uid (u : String) (v : ℝ) (p : Elo) :
    (if p.uid == u then { p with elo := v } else p).uid = p.uid := by
  by_cases h : p.uid == u <;> simp [h]

/-- The rating write changes no row's name. -/
theorem eloPatch_name (u : String) (v : ℝ) (p : Elo) :
    (if p.uid == u then { p with elo := v } else p).name = p.name := by
  by_cases h : p.uid == u <;> simp [h]

/-- Claim C10: a confirmation touches only the two participants' elo fields
and removes only the matched pending request: every non-participant player row
is untouched, the player count, uids and names are all preserved, every other
pending request survives, and everything left in the request table was already
there and differs from the matched request's key. -/
theorem elo_confirm_frame (cfg : Config) (db : DB) (selfId oppoId : String) (win : Bool)
    (self oppo : Elo) (req : EloRequest)
    (hself : db.players.find? (fun p => p.uid == selfId) = some self)
    (hoppo : db.players.find? (fun p => p.uid == oppoId) = some oppo)
    (hreq : db.requests.find? (fun r => r.src == oppoId && r.dest == selfId) = some req) :
    (∀ p ∈ db.players, p.uid ≠ selfId → p.uid ≠ oppoId →
        p ∈ (update cfg db selfId oppoId win).2.players)
    ∧ (update cfg db selfId oppoId win).2.players.length = db.players.length
    ∧ (∀ p' ∈ (update cfg db selfId oppoId win).2.players,
        ∃ p ∈ db.players, p'.uid = p.uid ∧ p'.name = p.name)
    ∧ (∀ r ∈ db.requests, r.rid ≠ req.rid → r ∈ (update cfg db selfId oppoId win).2.requests)
    ∧ (∀ r ∈ (update cfg db selfId oppoId win).2.requests,
        r ∈ db.requests ∧ r.rid ≠ req.rid) := by
  rw [update_confirm_eq cfg db selfId oppoId win self oppo req hself hoppo hreq]
  refine ⟨?_, ?_, ?_, ?_, ?_⟩
  · intro p hp h1 h2
    rw [removeRequest_players]
    unfold setPlayerElo
    simp only [List.map_map]
    refine List.mem_map.mpr ⟨p, hp, ?_⟩
    simp [Function.comp, h1, h2]
  · rw [removeRequest_players]
    unfold setPlayerElo
    simp
  · intro p' hp'
    rw [removeRequest_players] at hp'
    unfold setPlayerElo at hp'
    simp only [List.map_map, List.mem_map] at hp'
    rcases hp' with ⟨p, hp, hpe⟩
    refine ⟨p, hp, ?_, ?_⟩
    · rw [← hpe]
      simp only [Function.comp]
      rw [eloPatch_uid, eloPatch_uid]
    · rw [← hpe]
      simp only [Function.comp]
      rw [eloPatch_name, eloPatch_name]
  · intro r hr hrid
    rw [removeRequest_requests, setPlayerElo_requests, setPlayerElo_requests]
    exact List.mem_filter.mpr ⟨hr, by simpa using hrid⟩
  · intro r hr
    rw [removeRequest_requests, setPlayerElo_requests, setPlayerElo_requests] at hr
    have h := List.mem_filter.mp hr
    exact ⟨h.1, by simpa using h.2⟩

/-- Witness for claim C10 at the fixture store with B's pending proposal
against A, confirmed by A's call. -/
theorem elo_confirm_frame_witness :
    (∀ p ∈ dbRev.players, p.uid ≠ uidA → p.uid ≠ uidB →
        p ∈ (update cfg0 dbRev uidA uidB true).2.players)
    ∧ (update cfg0 dbRev uidA uidB true).2.players.length = dbRev.players.length
    ∧ (∀ p' ∈ (update cfg0 dbRev uidA uidB true).2.players,
        ∃ p ∈ dbRev.players, p'.uid = p.uid ∧ p'.name = p.name)
    ∧ (∀ r ∈ dbRev.requests, r.rid ≠ 1 → r ∈ (update cfg0 dbRev uidA uidB true).2.requests)
    ∧ (∀ r ∈ (update cfg0 dbRev uidA uidB true).2.requests,
        r ∈ dbRev.requests ∧ r.rid ≠ 1) :=
  elo_confirm_frame cfg0 dbRev uidA uidB true ⟨uidA, nameA, 400⟩ ⟨uidB, nameB, 400⟩
    ⟨1, uidB, uidA, EloStatus.Win, 16, -16⟩ rfl rfl rfl

end
